import Mathlib

/-!
Verification of the Google Maps business scraper backend.

The development shallowly embeds the scraping pipeline:
  * detail extraction (phone / country-code split, address-derived
    city / state / pincode, the assembled business record),
  * the email worker candidate filter, page-content extractor and
    navigation helper (`worker.js`),
  * the worker-pool dispatch with request-id correlation and timeout,
  * the incremental crawl loop of `scrapeGoogleMaps` with cancellation,
    stagnation counting and the sink callback,
  * the module-level worker-pool lifecycle.

JavaScript strings become `String`, JS `null`/`undefined` become
`Option`, and every catch-and-fall-back-to-sentinel pattern is modelled
by an explicit `Option` input describing whether the underlying page
query succeeded.
-/

namespace GMaps

/-- The absent-marker sentinel used throughout the scraper. -/
def NA : String := "N/A"

/-! ### Elementary string operations mirroring the JavaScript ones -/

/-- Removal of the first occurrence of a pattern, the behaviour of the
JavaScript `replace` method when its first argument is a plain string
and the replacement is empty. -/
def removeFirst (pat : List Char) : List Char → List Char
  | [] => []
  | c :: cs =>
    if pat.isPrefixOf (c :: cs) then (c :: cs).drop pat.length
    else c :: removeFirst pat cs

/-- Maximal run of ASCII digits at the head of the list (the greedy
digit-star of the regexes below). -/
def digitRun : List Char → List Char
  | [] => []
  | c :: cs => if c.isDigit then c :: digitRun cs else []

/-- Leftmost match of the regex `\+(\d+)` : the digit group of the first
plus sign that is immediately followed by at least one digit. -/
def findPlusDigits : List Char → Option (List Char)
  | [] => none
  | c :: cs =>
    if c = '+' then
      let ds := digitRun cs
      if ds.isEmpty then findPlusDigits cs else some ds
    else findPlusDigits cs

/-- Leftmost match of the regex `\d{6}` : the first window of six
consecutive ASCII digits. -/
def find6Digits : List Char → Option (List Char)
  | [] => none
  | c :: cs =>
    let win := (c :: cs).take 6
    if win.length = 6 ∧ win.all Char.isDigit then some win
    else find6Digits cs

/-- The whitespace characters stripped by the JavaScript `trim` method
(restricted to the ASCII ones that occur in scraped text). -/
def isWS (c : Char) : Bool :=
  c = ' ' || c = '\t' || c = '\n' || c = '\r'

/-- JavaScript `trim` on character lists: strip whitespace from both
ends. -/
def trimL (l : List Char) : List Char :=
  ((l.dropWhile isWS).reverse.dropWhile isWS).reverse

/-- JavaScript `trim` on strings. -/
def trimS (s : String) : String := String.mk (trimL s.toList)

/-- JavaScript `split(',')`: split at every comma, keeping empty
segments, always returning at least one segment. -/
def splitComma : List Char → List (List Char)
  | [] => [[]]
  | c :: cs =>
    if c = ',' then [] :: splitComma cs
    else
      match splitComma cs with
      | [] => [[c]]
      | p :: ps => (c :: p) :: ps

/-! ### Detail extraction (`processListingsBatch`, scraper part_000) -/

/-- Raw per-listing query results.  A `none` field means the
corresponding page query failed (its `catch` fired), so the code falls
back to the absent-marker.  `phoneText` is `none` exactly when the phone
button element was not found. -/
structure ListingData where
  name : Option String
  website : Option String
  phoneText : Option String
  address : Option String
  rating : Option String
  reviews : Option String
  category : Option String
deriving DecidableEq, Repr

/-- Collapse a failed query to the absent-marker. -/
def orNA : Option String → String
  | some s => s
  | none => NA

/-- One assembled business record.  `city` / `state` / `pincode` are
`Option` because the source assigns them only inside
`if (addressParts.length >= 2)`; `none` models the JavaScript property
being absent / `undefined`. -/
structure Business where
  name : String
  website : String
  phone : String
  countryCode : String
  address : String
  rating : String
  reviews : String
  category : String
  email : String
  city : Option String
  state : Option String
  pincode : Option String
deriving DecidableEq, Repr

/-- JavaScript `startsWith` specialised to the single character zero. -/
def startsWithZero : List Char → Bool
  | c :: _ => c = '0'
  | [] => false

/-- The phone / country-code split applied when the phone element was
found (source lines 185–194): leftmost plus-digits match wins, else a leading
zero is stripped with default `"+91"`, else default `"+91"` with the
phone unchanged.  Returns `(phone, countryCode)`. -/
def splitPhoneL (raw : List Char) : List Char × List Char :=
  match findPlusDigits raw with
  | some ds => (trimL (removeFirst ('+' :: ds) raw), '+' :: ds)
  | none =>
    if startsWithZero raw then (trimL (raw.drop 1), ['+', '9', '1'])
    else (raw, ['+', '9', '1'])

/-- String version of `splitPhoneL`. -/
def splitPhone (raw : String) : String × String :=
  let p := splitPhoneL raw.toList
  (String.mk p.1, String.mk p.2)

/-- Phone and country code of a listing: both stay `"N/A"` when the
phone element is missing, otherwise `splitPhone` runs on its text. -/
def phoneOf (d : ListingData) : String × String :=
  match d.phoneText with
  | none => (NA, NA)
  | some raw => splitPhone raw

/-- City / state / pincode derivation from the comma-split address
(source lines 210–217).  Returns `(city, state, pincode)`; all three
stay unassigned (`none`) when fewer than two segments exist. -/
def splitAddress (addr : String) : Option String × Option String × Option String :=
  let parts := splitComma addr.toList
  if 2 ≤ parts.length then
    let city := trimL (parts.getD (parts.length - 2) [])
    let statePin := trimL (parts.getD (parts.length - 1) [])
    match find6Digits statePin with
    | some pin =>
      (some (String.mk city), some (String.mk (trimL (removeFirst pin statePin))),
        some (String.mk pin))
    | none => (some (String.mk city), some (String.mk statePin), some NA)
  else (none, none, none)

/-- Assemble the business record for one listing exactly as
`processListingsBatch` does, before the optional email-worker dispatch
(`email` starts as the absent-marker). -/
def buildBusiness (d : ListingData) : Business :=
  let pc := phoneOf d
  let address := orNA d.address
  let csp := splitAddress address
  { name := orNA d.name
    website := orNA d.website
    phone := pc.1
    countryCode := pc.2
    address := address
    rating := orNA d.rating
    reviews := orNA d.reviews
    category := orNA d.category
    email := NA
    city := csp.1
    state := csp.2.1
    pincode := csp.2.2 }

/-- A listing whose every page query failed: each field falls back to
the absent-marker and no phone element was found. -/
def allFailedListing : ListingData :=
  ⟨none, none, none, none, none, none, none⟩

/-- A listing with the example address of the spec and phone. -/
def exampleListing : ListingData :=
  ⟨some "Acme Stores", some "https://acme.example", some "+91 9876543210",
    some "12 MG Road, Bangalore, Karnataka 560001", some "4.5", some "120",
    some "Store"⟩

/-- A listing whose phone button was not found but whose other queries
succeeded. -/
def noPhoneListing : ListingData :=
  ⟨some "Tea House", some "https://teahouse.in", none,
    some "5 Lake View, Udaipur, Rajasthan 313001", some "4.2", some "88",
    some "Cafe"⟩

/-- A listing whose address has a single comma-segment. -/
def oneSegmentListing : ListingData :=
  ⟨some "Corner Shop", some "https://cornershop.in", some "9876543210",
    some "Connaught Place New Delhi", some "4.0", some "15", some "Shop"⟩

/-- The presence claim of the spec: all twelve record fields carry a
value.  The nine `String` fields are present by construction, so the
content of the claim is that the three conditionally-assigned fields
are assigned. -/
def twelveFieldsPresent (b : Business) : Prop :=
  b.city.isSome ∧ b.state.isSome ∧ b.pincode.isSome

/-- Inverse of `splitComma` used to state the address-split theorem
over arbitrary segment lists. -/
def joinComma : List (List Char) → List Char
  | [] => []
  | [p] => p
  | p :: ps => p ++ ',' :: joinComma ps

theorem splitComma_ne_nil (l : List Char) : splitComma l ≠ [] := by
  induction l with
  | nil => simp [splitComma]
  | cons c cs ih =>
    simp only [splitComma]
    by_cases h : c = ','
    · simp [h]
    · simp only [if_neg h]
      cases hs : splitComma cs with
      | nil => simp
      | cons p ps => simp

theorem splitComma_no_comma (p : List Char) (h : ',' ∉ p) :
    splitComma p = [p] := by
  induction p with
  | nil => rfl
  | cons c cs ih =>
    have hc : c ≠ ',' := fun hc => h (hc ▸ List.mem_cons_self c cs)
    have hcs : ',' ∉ cs := fun hm => h (List.mem_cons_of_mem c hm)
    simp only [splitComma, if_neg hc, ih hcs]

theorem splitComma_append (p rest : List Char) (h : ',' ∉ p) :
    splitComma (p ++ ',' :: rest) = p :: splitComma rest := by
  induction p with
  | nil => simp [splitComma]
  | cons c cs ih =>
    have hc : c ≠ ',' := fun hc => h (hc ▸ List.mem_cons_self c cs)
    have hcs : ',' ∉ cs := fun hm => h (List.mem_cons_of_mem c hm)
    simp only [List.cons_append, splitComma, if_neg hc, List.append_eq, ih hcs]

theorem splitComma_joinComma (segs : List (List Char)) (hne : segs ≠ [])
    (h : ∀ p ∈ segs, ',' ∉ p) : splitComma (joinComma segs) = segs := by
  induction segs with
  | nil => exact absurd rfl hne
  | cons p ps ih =>
    cases ps with
    | nil =>
      simpa [joinComma] using splitComma_no_comma p (h p (List.mem_cons_self p []))
    | cons q qs =>
      have hp : ',' ∉ p := h p (List.mem_cons_self _ _)
      have hrest : ∀ r ∈ q :: qs, ',' ∉ r := fun r hr =>
        h r (List.mem_cons_of_mem p hr)
      have : joinComma (p :: q :: qs) = p ++ ',' :: joinComma (q :: qs) := rfl
      rw [this, splitComma_append p _ hp, ih (by simp) hrest]

theorem toList_mk (l : List Char) : (String.mk l).toList = l := rfl

/-- Exhaustive shape of `splitAddress`: either the address has at least
two comma-segments and all three derived fields are assigned, or it has
fewer and all three stay unassigned. -/
theorem splitAddress_cases (addr : String) :
    (2 ≤ (splitComma addr.toList).length ∧ (splitAddress addr).1.isSome ∧
      (splitAddress addr).2.1.isSome ∧ (splitAddress addr).2.2.isSome) ∨
    ((splitComma addr.toList).length < 2 ∧ splitAddress addr = (none, none, none)) := by
  by_cases h : 2 ≤ (splitComma addr.toList).length
  · left
    refine ⟨h, ?_⟩
    simp only [splitAddress, if_pos h]
    cases hf : find6Digits (trimL ((splitComma addr.toList).getD
        ((splitComma addr.toList).length - 1) [])) with
    | none => simp [hf]
    | some pin => simp [hf]
  · right
    refine ⟨Nat.lt_of_not_le h, ?_⟩
    simp only [splitAddress]
    rw [if_neg h]

theorem buildBusiness_city (d : ListingData) :
    (buildBusiness d).city = (splitAddress (orNA d.address)).1 ∧
    (buildBusiness d).state = (splitAddress (orNA d.address)).2.1 ∧
    (buildBusiness d).pincode = (splitAddress (orNA d.address)).2.2 ∧
    (buildBusiness d).address = orNA d.address := by
  simp [buildBusiness]

/-- C1 counterexample: a listing whose address query failed (address
falls back to `"N/A"`, one comma-segment) produces a record with
`city`, `state` and `pincode` missing entirely, so the claim that all
twelve fields are always present fails. -/
theorem C1_counterexample :
    ¬ twelveFieldsPresent (buildBusiness allFailedListing) := by
  unfold twelveFieldsPresent
  decide

/-- C1 (amended): the nine directly-constructed fields always hold a
value (with the absent-marker substituted whenever the underlying query
failed), while `city`, `state`, `pincode` are assigned — all three at
once — exactly when the comma-split address has at least two segments;
with fewer segments they are omitted. -/
theorem C1_fields_present (d : ListingData) :
    ((twelveFieldsPresent (buildBusiness d)) ↔
      2 ≤ (splitComma (buildBusiness d).address.toList).length) ∧
    ((buildBusiness d).city.isSome ∨
      ((buildBusiness d).city = none ∧ (buildBusiness d).state = none ∧
        (buildBusiness d).pincode = none)) ∧
    (d.name = none → (buildBusiness d).name = NA) ∧
    (d.website = none → (buildBusiness d).website = NA) ∧
    (d.address = none → (buildBusiness d).address = NA) ∧
    (d.rating = none → (buildBusiness d).rating = NA) ∧
    (d.reviews = none → (buildBusiness d).reviews = NA) ∧
    (d.category = none → (buildBusiness d).category = NA) ∧
    (d.phoneText = none →
      (buildBusiness d).phone = NA ∧ (buildBusiness d).countryCode = NA) ∧
    (buildBusiness d).email = NA := by
  obtain ⟨hc, hs, hp, ha⟩ := buildBusiness_city d
  constructor
  · rw [twelveFieldsPresent, hc, hs, hp, ha]
    rcases splitAddress_cases (orNA d.address) with ⟨h2, h3⟩ | ⟨h2, h3⟩
    · exact ⟨fun _ => h2, fun _ => h3⟩
    · constructor
      · rintro ⟨hcs, -, -⟩
        rw [h3] at hcs
        exact absurd hcs (by simp)
      · intro hx
        exact absurd (Nat.lt_of_lt_of_le h2 hx) (lt_irrefl _)
  constructor
  · rw [hc, hs, hp]
    rcases splitAddress_cases (orNA d.address) with ⟨-, h3, -, -⟩ | ⟨-, h3⟩
    · exact Or.inl h3
    · exact Or.inr (by rw [h3]; exact ⟨rfl, rfl, rfl⟩)
  refine ⟨?_, ?_, ?_, ?_, ?_, ?_, ?_, ?_⟩
  · intro h; simp [buildBusiness, orNA, h]
  · intro h; simp [buildBusiness, orNA, h]
  · intro h; simp [buildBusiness, orNA, h]
  · intro h; simp [buildBusiness, orNA, h]
  · intro h; simp [buildBusiness, orNA, h]
  · intro h; simp [buildBusiness, orNA, h]
  · intro h; simp [buildBusiness, phoneOf, h]
  · simp [buildBusiness]

/-- C1 witness. -/
theorem C1_fields_present_witness :
    (twelveFieldsPresent (buildBusiness exampleListing) ↔
      2 ≤ (splitComma (buildBusiness exampleListing).address.toList).length) ∧
    (buildBusiness allFailedListing).name = NA :=
  ⟨(C1_fields_present exampleListing).1,
    (C1_fields_present allFailedListing).2.2.1 rfl⟩

theorem digitRun_append (ds rest : List Char) (hall : ds.all Char.isDigit = true)
    (hrest : digitRun rest = []) : digitRun (ds ++ rest) = ds := by
  induction ds with
  | nil => simpa [digitRun] using hrest
  | cons c cs ih =>
    simp only [List.all_cons, Bool.and_eq_true] at hall
    simp [digitRun, hall.1, ih hall.2]

theorem findPlusDigits_head (ds rest : List Char) (hne : ds ≠ [])
    (hall : ds.all Char.isDigit = true) (hrest : digitRun rest = []) :
    findPlusDigits ('+' :: (ds ++ rest)) = some ds := by
  simp [findPlusDigits, digitRun_append ds rest hall hrest, hne]

theorem removeFirst_head (c : Char) (cs rest : List Char) :
    removeFirst (c :: cs) ((c :: cs) ++ rest) = rest := by
  have hpre : (c :: cs).isPrefixOf (c :: (cs ++ rest)) = true := by
    rw [← List.cons_append, List.isPrefixOf_iff_prefix]
    exact List.prefix_append _ _
  rw [List.cons_append]
  simp only [removeFirst]
  rw [if_pos hpre]
  simp [List.drop_left]

/-- C2 counterexample: when the phone element is not found at all, the
record keeps `countryCode = "N/A"` rather than defaulting to `"+91"` as
the claim states. -/
theorem C2_counterexample :
    (buildBusiness noPhoneListing).countryCode = "N/A" ∧
    (buildBusiness noPhoneListing).countryCode ≠ "+91" := by
  constructor
  · decide
  · decide

/-- C2 (amended): for a present phone text the split follows the three
claimed cases — an explicit plus-digits prefix becomes the country code
and is stripped, a leading zero is stripped with default `"+91"`, and
otherwise the default `"+91"` leaves the phone unchanged — including the
three concrete examples of the spec; but when no phone element is found
both `phone` and `countryCode` stay the absent-marker `"N/A"` (the
`"+91"` default applies only when a phone text is present). -/
theorem C2_phone_split :
    (∀ ds rest : List Char, ds ≠ [] → ds.all Char.isDigit = true →
      digitRun rest = [] →
      splitPhoneL ('+' :: (ds ++ rest)) = (trimL rest, '+' :: ds)) ∧
    (∀ rest : List Char, findPlusDigits ('0' :: rest) = none →
      splitPhoneL ('0' :: rest) = (trimL rest, ['+', '9', '1'])) ∧
    (∀ raw : List Char, findPlusDigits raw = none → startsWithZero raw = false →
      splitPhoneL raw = (raw, ['+', '9', '1'])) ∧
    (∀ d : ListingData, d.phoneText = none →
      (buildBusiness d).phone = NA ∧ (buildBusiness d).countryCode = NA) ∧
    (∀ d raw, d.phoneText = some raw →
      (buildBusiness d).phone = (splitPhone raw).1 ∧
      (buildBusiness d).countryCode = (splitPhone raw).2) ∧
    splitPhone "+91 9876543210" = ("9876543210", "+91") ∧
    splitPhone "09876543210" = ("9876543210", "+91") ∧
    splitPhone "9876543210" = ("9876543210", "+91") := by
  refine ⟨?_, ?_, ?_, ?_, ?_, by decide, by decide, by decide⟩
  · intro ds rest hne hall hrest
    have hf := findPlusDigits_head ds rest hne hall hrest
    have hr := removeFirst_head '+' ds rest
    rw [List.cons_append] at hr
    simp only [splitPhoneL, hf]
    rw [hr]
  · intro rest h
    simp [splitPhoneL, h, startsWithZero]
  · intro raw h hz
    simp [splitPhoneL, h, hz]
  · intro d h
    simp [buildBusiness, phoneOf, h]
  · intro d raw h
    simp [buildBusiness, phoneOf, h]

/-- C2 witness. -/
theorem C2_phone_split_witness :
    splitPhoneL ('+' :: (['9', '1'] ++ [' ', '9', '8'])) =
      (trimL [' ', '9', '8'], '+' :: ['9', '1']) :=
  C2_phone_split.1 ['9', '1'] [' ', '9', '8'] (by decide) (by decide) (by decide)

/-- C3 counterexample: with a one-comma-segment address the three
derived fields are omitted (`none`) rather than remaining set to the
absent-marker `"N/A"` as the claim states. -/
theorem C3_counterexample :
    (buildBusiness oneSegmentListing).city = none ∧
    (buildBusiness oneSegmentListing).city ≠ some NA ∧
    (buildBusiness oneSegmentListing).state ≠ some NA ∧
    (buildBusiness oneSegmentListing).pincode ≠ some NA := by
  refine ⟨by decide, by decide, by decide, by decide⟩

/-- C3 (amended): when the comma-split address has at least two
segments, the city is the trimmed second-to-last segment; if the last
segment contains a six-digit run, pincode is that run and state is the
segment with the run removed (trimmed), else state is the whole trimmed
last segment and pincode is the absent-marker `"N/A"`.  The example
address of the spec yields Bangalore / Karnataka / 560001.  With fewer
than two segments the three fields are not assigned at all. -/
theorem C3_address_split :
    (∀ segs : List (List Char), 2 ≤ segs.length → (∀ p ∈ segs, ',' ∉ p) →
      ∀ city statePin : List Char,
        city = trimL (segs.getD (segs.length - 2) []) →
        statePin = trimL (segs.getD (segs.length - 1) []) →
        ((find6Digits statePin = none →
          splitAddress (String.mk (joinComma segs)) =
            (some (String.mk city), some (String.mk statePin), some NA)) ∧
         (∀ pin, find6Digits statePin = some pin →
          splitAddress (String.mk (joinComma segs)) =
            (some (String.mk city),
              some (String.mk (trimL (removeFirst pin statePin))),
              some (String.mk pin))))) ∧
    (∀ seg : List Char, ',' ∉ seg →
      splitAddress (String.mk seg) = (none, none, none)) ∧
    splitAddress "12 MG Road, Bangalore, Karnataka 560001" =
      (some "Bangalore", some "Karnataka", some "560001") := by
  refine ⟨?_, ?_, by decide⟩
  · intro segs h2 hnc city statePin hcity hsp
    have hne : segs ≠ [] := by
      intro h; rw [h] at h2; exact absurd h2 (by decide)
    have hs : splitComma (String.mk (joinComma segs)).toList = segs := by
      rw [toList_mk]; exact splitComma_joinComma segs hne hnc
    constructor
    · intro hf
      simp only [splitAddress, hs]
      rw [if_pos h2, ← hcity, ← hsp]
      simp only [hf]
    · intro pin hf
      simp only [splitAddress, hs]
      rw [if_pos h2, ← hcity, ← hsp]
      simp only [hf]
  · intro seg hnc
    have hs : splitComma (String.mk seg).toList = [seg] := by
      rw [toList_mk]; exact splitComma_no_comma seg hnc
    simp only [splitAddress, hs]
    rw [if_neg (by simp)]

/-- C3 witness. -/
theorem C3_address_split_witness :
    splitAddress (String.mk (joinComma [['B'], ['K', 'P']])) =
      (some (String.mk (trimL ['B'])), some (String.mk (trimL ['K', 'P'])), some NA) :=
  ((C3_address_split.1 [['B'], ['K', 'P']] (by decide)
      (by decide)
      (trimL ['B']) (trimL ['K', 'P']) (by decide) (by decide)).1 (by decide))

/-! ### Email worker (`worker.js`): candidate filter, page extractor,
navigation helper -/

/-- JavaScript `toLowerCase` followed by `trim`, the normalisation the
worker applies to every email candidate before filtering. -/
def normalizeEmail (raw : List Char) : List Char :=
  trimL (raw.map Char.toLower)

/-- The denylist substrings of the worker filter (`worker.js` lines
51–57). -/
def emailDenylist : List (List Char) :=
  ["example".toList, "test@".toList, "email@".toList, "your@".toList,
    "sample@".toList, "demo@".toList, "domain".toList]

/-- Boolean contiguous-substring test, the JavaScript `includes`
method on strings. -/
def isInfixL (pat : List Char) : List Char → Bool
  | [] => pat.isEmpty
  | c :: cs => pat.isPrefixOf (c :: cs) || isInfixL pat cs

/-- The acceptance test of `addEmail` (`worker.js` lines 44–60): the
normalised candidate must have length strictly between 5 and 100,
contain an at-sign and a dot, and avoid every denylist substring. -/
def addEmailOk (raw : List Char) : Bool :=
  let e := normalizeEmail raw
  decide (5 < e.length) && decide (e.length < 100) &&
    e.contains '@' && e.contains '.' &&
    emailDenylist.all (fun pat => !(isInfixL pat e))

/-- A loaded document as the page extractor sees it: the email-regex
matches of `innerHTML` and of `textContent` in match order, the mailto
hyperlink targets in document order, and the values of email-typed
inputs in document order.  The extractor walks these groups in exactly
this order (`worker.js` lines 62–84). -/
structure PageDoc where
  htmlMatches : List (List Char)
  textMatches : List (List Char)
  mailtoHrefs : List (List Char)
  inputValues : List (List Char)
deriving Repr

/-- `href.replace('mailto:', '').split('?')[0]` applied to a mailto
hyperlink target. -/
def stripMailto (href : List Char) : List Char :=
  (removeFirst "mailto:".toList href).takeWhile (fun c => c ≠ '?')

/-- `results.add(...)` on the insertion-ordered JavaScript `Set`: the
normalised candidate is appended only if it passes the filter and is
not already present. -/
def insertCandidate (acc : List (List Char)) (raw : List Char) : List (List Char) :=
  let e := normalizeEmail raw
  if addEmailOk raw && !(acc.contains e) then acc ++ [e] else acc

/-- All candidates in the order the worker feeds them to `addEmail`:
HTML content matches, then text content matches, then mailto targets,
then non-empty input values. -/
def pageCandidates (doc : PageDoc) : List (List Char) :=
  doc.htmlMatches ++ doc.textMatches ++ doc.mailtoHrefs.map stripMailto ++
    doc.inputValues.filter (fun v => v ≠ [])

/-- The page extractor: first element of the insertion-ordered accepted
set, `none` when no candidate survives (`emails.length > 0 ?
emails[0] : null`). -/
def extractEmailsFromPage (doc : PageDoc) : Option (List Char) :=
  ((pageCandidates doc).foldl insertCandidate []).head?

/-- First accepted candidate of a list, already normalised. -/
def firstAccepted : List (List Char) → Option (List Char)
  | [] => none
  | c :: cs => if addEmailOk c then some (normalizeEmail c) else firstAccepted cs

theorem insertCandidate_apply (acc : List (List Char)) (raw : List Char) :
    insertCandidate acc raw =
      if (addEmailOk raw && !(acc.contains (normalizeEmail raw))) = true
      then acc ++ [normalizeEmail raw] else acc := rfl

theorem foldl_insertCandidate_head (l : List (List Char)) :
    ∀ acc, acc ≠ [] → (l.foldl insertCandidate acc).head? = acc.head? := by
  induction l with
  | nil => intro acc _; rfl
  | cons c cs ih =>
    intro acc hne
    rw [List.foldl_cons, insertCandidate_apply]
    by_cases h : (addEmailOk c && !(acc.contains (normalizeEmail c))) = true
    · rw [if_pos h, ih _ (by simp)]
      cases acc with
      | nil => exact absurd rfl hne
      | cons a as => simp
    · rw [if_neg h, ih _ hne]

theorem extract_eq_firstAccepted (l : List (List Char)) :
    (l.foldl insertCandidate []).head? = firstAccepted l := by
  induction l with
  | nil => rfl
  | cons c cs ih =>
    rw [List.foldl_cons, insertCandidate_apply]
    by_cases h : addEmailOk c = true
    · rw [if_pos (by simp [h]), List.nil_append]
      rw [foldl_insertCandidate_head cs [normalizeEmail c] (by simp)]
      simp [firstAccepted, h]
    · rw [if_neg (by simp [h]), ih]
      simp [firstAccepted, h]

theorem firstAccepted_append (l₁ l₂ : List (List Char)) :
    firstAccepted (l₁ ++ l₂) =
      (match firstAccepted l₁ with
       | some e => some e
       | none => firstAccepted l₂) := by
  induction l₁ with
  | nil => rfl
  | cons c cs ih =>
    by_cases h : addEmailOk c = true
    · simp [firstAccepted, h]
    · simp [firstAccepted, h, ih]

/-- A document holding both an accepted free-text candidate (in the
page content) and an accepted mailto candidate. -/
def bothKindsDoc : PageDoc :=
  ⟨["info@companysite.in".toList], [], ["mailto:owner@realbiz.in".toList], []⟩

/-- C7 counterexample: on a document with an accepted free-text
candidate and an accepted mailto candidate, the extractor returns the
free-text one — mailto matches do not take priority. -/
theorem C7_counterexample :
    addEmailOk "info@companysite.in".toList = true ∧
    addEmailOk (stripMailto "mailto:owner@realbiz.in".toList) = true ∧
    extractEmailsFromPage bothKindsDoc = some "info@companysite.in".toList ∧
    extractEmailsFromPage bothKindsDoc ≠
      some (normalizeEmail (stripMailto "mailto:owner@realbiz.in".toList)) := by
  refine ⟨by decide, by decide, by decide, by decide⟩

/-- C7 (amended): the extractor returns the first accepted candidate in
collection order — HTML content matches, then text matches, then mailto
targets, then input values — so whenever an accepted content (free-text)
candidate exists it is returned, and a mailto candidate wins only when
no earlier content candidate is accepted. -/
theorem C7_first_in_collection_order :
    (∀ doc : PageDoc, extractEmailsFromPage doc = firstAccepted (pageCandidates doc)) ∧
    (∀ (doc : PageDoc) (e : List Char),
      firstAccepted (doc.htmlMatches ++ doc.textMatches) = some e →
      extractEmailsFromPage doc = some e) := by
  have hmain : ∀ doc : PageDoc,
      extractEmailsFromPage doc = firstAccepted (pageCandidates doc) :=
    fun doc => extract_eq_firstAccepted (pageCandidates doc)
  refine ⟨hmain, fun doc e he => ?_⟩
  rw [hmain doc]
  unfold pageCandidates
  rw [firstAccepted_append, firstAccepted_append, he]

/-- C7 witness. -/
theorem C7_first_in_collection_order_witness :
    extractEmailsFromPage bothKindsDoc = some "info@companysite.in".toList :=
  C7_first_in_collection_order.2 bothKindsDoc "info@companysite.in".toList (by decide)

/-- The denylist as the claim states it (five entries). -/
def claimDenylist : List (List Char) :=
  ["example".toList, "test@".toList, "your@".toList, "sample@".toList,
    "domain".toList]

/-- C8 counterexample: the candidate string of eight letters fails none
of the claimed rejection criteria (length between 5 and 100 exclusive,
no denylist substring), yet the filter rejects it, because the filter
additionally requires an at-sign and a dot — so the claimed
characterisation misses two criteria. -/
theorem C8_counterexample :
    addEmailOk "abcdefgh".toList = false ∧
    ¬ (normalizeEmail "abcdefgh".toList).length ≤ 5 ∧
    ¬ 100 ≤ (normalizeEmail "abcdefgh".toList).length ∧
    (claimDenylist.all
      (fun pat => !(isInfixL pat (normalizeEmail "abcdefgh".toList)))) = true := by
  refine ⟨by decide, by decide, by decide, by decide⟩

/-- C8 (amended): the filter lower-cases and trims the candidate, then
accepts it iff its length is strictly greater than 5 and strictly less
than 100, it contains an at-sign and a dot, and it contains none of the
seven denylist substrings (example, test@, email@, your@, sample@,
demo@, domain); in particular test@example.com is rejected and
owner@realbiz.in is accepted. -/
theorem C8_filter :
    (∀ raw : List Char,
      addEmailOk raw = true ↔
        (5 < (normalizeEmail raw).length ∧ (normalizeEmail raw).length < 100 ∧
          (normalizeEmail raw).contains '@' = true ∧
          (normalizeEmail raw).contains '.' = true ∧
          ∀ pat ∈ emailDenylist, isInfixL pat (normalizeEmail raw) = false)) ∧
    addEmailOk "test@example.com".toList = false ∧
    addEmailOk "owner@realbiz.in".toList = true := by
  refine ⟨fun raw => ?_, by decide, by decide⟩
  unfold addEmailOk
  simp [Bool.and_eq_true, List.all_eq_true, and_assoc]

/-- C8 witness. -/
theorem C8_filter_witness :
    5 < (normalizeEmail "owner@realbiz.in".toList).length :=
  ((C8_filter.1 "owner@realbiz.in".toList).mp (by decide)).1

/-! ### Navigation helper (`safeGoTo`, `worker.js` lines 95–115) -/

/-- The observable environment of one `safeGoTo` call: whether the page
was already closed on entry, whether the `goto` navigation itself
succeeded (its rejection is swallowed by an inner catch), and whether
the page is closed after the settle wait. -/
structure NavEnv where
  closedAtStart : Bool
  navSucceeds : Bool
  closedAfter : Bool
deriving DecidableEq, Repr

/-- URL normalisation of `safeGoTo`: trim, then prefix `https://` when
the trimmed URL does not start with `http`. -/
def normalizeUrlL (url : List Char) : List Char :=
  let u := trimL url
  if "http".toList.isPrefixOf u then u else "https://".toList ++ u

/-- The navigation helper: returns false immediately when the page is
closed on entry; otherwise navigates to the normalised URL (errors
swallowed), waits, and returns the negation of `isClosed()`.  The
second component is the URL handed to `goto` (`none` when the early
return fired). -/
def safeGoTo (env : NavEnv) (url : List Char) : Bool × Option (List Char) :=
  if env.closedAtStart then (false, none)
  else (!env.closedAfter, some (normalizeUrlL url))

/-- A navigation that times out while the page stays open. -/
def timeoutNavEnv : NavEnv := ⟨false, false, false⟩

/-- C6 counterexample: when the `goto` call fails (timeout or network
error) but the page remains open, `safeGoTo` still returns true — the
claim that it returns false on any timeout or network error, returning
true only on successful navigation, fails. -/
theorem C6_counterexample :
    (safeGoTo timeoutNavEnv "deadsite.example".toList).1 = true ∧
    timeoutNavEnv.navSucceeds = false := by
  refine ⟨by decide, by decide⟩

/-- C6 (amended): `safeGoTo` trims the URL and prefixes `https://` when
no `http` prefix is present, never raises past its boundary (it is a
total function of its environment), and returns false exactly when the
session is closed — at entry or after the settle delay.  Navigation
errors themselves are swallowed: the result does not depend on whether
`goto` succeeded. -/
theorem C6_safeGoTo :
    (∀ (env : NavEnv) (url : List Char),
      (safeGoTo env url).1 = true ↔
        (env.closedAtStart = false ∧ env.closedAfter = false)) ∧
    (∀ (env : NavEnv) (url : List Char), env.closedAtStart = false →
      (safeGoTo env url).2 = some (normalizeUrlL url)) ∧
    (∀ env url, (safeGoTo env url).1 =
      (safeGoTo ⟨env.closedAtStart, !env.navSucceeds, env.closedAfter⟩ url).1) ∧
    (∀ url, "http".toList.isPrefixOf (trimL url) = false →
      normalizeUrlL url = "https://".toList ++ trimL url) ∧
    (∀ url, "http".toList.isPrefixOf (trimL url) = true →
      normalizeUrlL url = trimL url) := by
  refine ⟨fun env url => ?_, fun env url h => ?_, fun env url => ?_,
    fun url h => ?_, fun url h => ?_⟩
  · unfold safeGoTo
    cases hcs : env.closedAtStart <;> cases hca : env.closedAfter <;> simp
  · simp [safeGoTo, h]
  · unfold safeGoTo
    cases env.closedAtStart <;> simp
  · simp only [normalizeUrlL]
    rw [if_neg (by rw [h]; exact Bool.false_ne_true)]
  · simp only [normalizeUrlL]
    rw [if_pos h]

/-- C6 witness. -/
theorem C6_safeGoTo_witness :
    (safeGoTo ⟨false, true, false⟩ "  acme.example  ".toList).2 =
      some (normalizeUrlL "  acme.example  ".toList) :=
  C6_safeGoTo.2.1 ⟨false, true, false⟩ "  acme.example  ".toList rfl

/-! ### Worker-pool dispatch (part_000 lines 219–250) -/

/-- One reply message on the worker channel. -/
structure Reply where
  requestId : String
  error : Bool
  email : Option String
deriving DecidableEq, Repr

/-- A reply together with its arrival time in milliseconds after the
dispatch started. -/
structure TimedMsg where
  arrival : Nat
  msg : Reply
deriving DecidableEq, Repr

/-- The dispatch timeout (source line 229: 30000 ms). -/
def DISPATCH_TIMEOUT_MS : Nat := 30000

/-- The one-shot message handler: the first message carrying the
matching requestId and arriving before the timeout resolves the
dispatch; all other messages are ignored. -/
def firstMatching (rid : String) : List TimedMsg → Option TimedMsg
  | [] => none
  | m :: ms =>
    if m.msg.requestId = rid ∧ m.arrival < DISPATCH_TIMEOUT_MS then some m
    else firstMatching rid ms

/-- One dispatch: register the listener for `rid`, wait for a matching
message or the timeout, remove the listener, and resolve.  The result
is `((resolve time, resolved reply), listeners afterwards)`; on timeout
the synthesised reply is the non-error absent-marker one (source line
228). -/
def dispatch (rid : String) (msgs : List TimedMsg) (listeners : List String) :
    (Nat × Reply) × List String :=
  let registered := rid :: listeners
  match firstMatching rid msgs with
  | some m => ((m.arrival, m.msg), registered.erase rid)
  | none => ((DISPATCH_TIMEOUT_MS, ⟨rid, false, some NA⟩), registered.erase rid)

/-- The email stored on the record from a resolved reply (source line
250): `result.error ? 'N/A' : (result.email || 'N/A')`; note that the
JavaScript or-fallback also maps the empty string to the marker. -/
def assignedEmail (r : Reply) : String :=
  if r.error then NA
  else
    match r.email with
    | none => NA
    | some e => if e = "" then NA else e

theorem firstMatching_lt (rid : String) (msgs : List TimedMsg) (m : TimedMsg)
    (h : firstMatching rid msgs = some m) : m.arrival < DISPATCH_TIMEOUT_MS := by
  induction msgs with
  | nil => exact absurd h (by simp [firstMatching])
  | cons x xs ih =>
    rw [firstMatching] at h
    by_cases hc : x.msg.requestId = rid ∧ x.arrival < DISPATCH_TIMEOUT_MS
    · rw [if_pos hc] at h
      cases h
      exact hc.2
    · rw [if_neg hc] at h
      exact ih h

theorem firstMatching_none (rid : String) (msgs : List TimedMsg)
    (h : ∀ m ∈ msgs, m.msg.requestId ≠ rid) : firstMatching rid msgs = none := by
  induction msgs with
  | nil => rfl
  | cons x xs ih =>
    rw [firstMatching]
    rw [if_neg (fun hc => h x (List.mem_cons_self _ _) hc.1)]
    exact ih (fun m hm => h m (List.mem_cons_of_mem _ hm))

/-- C4: a dispatch always removes its listener again (the pool state is
unchanged, so the pool stays usable); it resolves no later than the
30-second timeout; when no message carries the matching requestId the
outcome is exactly the timeout-synthesised non-error absent-marker
reply; and the record email collapses to the absent-marker whenever the
reply is an error or carries a null email. -/
theorem C4_dispatch_protocol :
    (∀ rid msgs listeners, (dispatch rid msgs listeners).2 = listeners) ∧
    (∀ rid msgs listeners, (dispatch rid msgs listeners).1.1 ≤ DISPATCH_TIMEOUT_MS) ∧
    (∀ rid msgs listeners, (∀ m ∈ msgs, m.msg.requestId ≠ rid) →
      dispatch rid msgs listeners =
        ((DISPATCH_TIMEOUT_MS, ⟨rid, false, some NA⟩), listeners) ∧
      assignedEmail (dispatch rid msgs listeners).1.2 = NA) ∧
    (∀ r : Reply, r.error = true → assignedEmail r = NA) ∧
    (∀ r : Reply, r.email = none → assignedEmail r = NA) := by
  have herase : ∀ (rid : String) (l : List String), (rid :: l).erase rid = l :=
    fun rid l => List.erase_cons_head rid l
  refine ⟨fun rid msgs listeners => ?_, fun rid msgs listeners => ?_,
    fun rid msgs listeners h => ?_, fun r h => ?_, fun r h => ?_⟩
  · unfold dispatch
    cases hf : firstMatching rid msgs <;> simp [herase]
  · unfold dispatch
    cases hf : firstMatching rid msgs with
    | none => simp
    | some m => simpa using Nat.le_of_lt (firstMatching_lt rid msgs m hf)
  · have hn := firstMatching_none rid msgs h
    constructor
    · unfold dispatch
      rw [hn]
      simp [herase]
    · unfold dispatch
      rw [hn]
      simp [assignedEmail, NA]
  · simp [assignedEmail, h]
  · cases hr : r.error <;> simp [assignedEmail, hr, h]

/-- C4 witness. -/
theorem C4_dispatch_protocol_witness :
    dispatch "req-1" [⟨5, ⟨"req-0", false, some "x@y.in"⟩⟩] [] =
      ((DISPATCH_TIMEOUT_MS, ⟨"req-1", false, some NA⟩), []) :=
  (C4_dispatch_protocol.2.2.1 "req-1" [⟨5, ⟨"req-0", false, some "x@y.in"⟩⟩] []
    (by decide)).1

/-! ### Module-level worker pool lifecycle (part_000 lines 9–25,
127–130, 320–328, 331–335) -/

/-- One worker-thread handle; `alive` is false once `terminate()` has
been called. -/
structure WorkerH where
  id : Nat
  alive : Bool
deriving DecidableEq, Repr

/-- The module-level pool: the `workers` array and the round-robin
cursor. -/
structure PoolState where
  workers : List WorkerH
  cursor : Nat
deriving DecidableEq, Repr

/-- Fixed pool size (source line 7). -/
def NUM_WORKERS : Nat := 4

/-- `initializeWorkerPool`: push `NUM_WORKERS` fresh live workers onto
the array. -/
def initializeWorkerPool (s : PoolState) : PoolState :=
  ⟨s.workers ++ (List.range NUM_WORKERS).map (fun i => ⟨s.workers.length + i, true⟩),
    s.cursor⟩

/-- The lazy-initialisation guard at the top of `scrapeGoogleMaps`
(lines 128–130): initialise only when the array is empty. -/
def ensurePool (s : PoolState) : PoolState :=
  if s.workers.length = 0 then initializeWorkerPool s else s

/-- The `finally` block (lines 320–328): terminate every worker but
leave the array contents in place. -/
def terminateAll (s : PoolState) : PoolState :=
  ⟨s.workers.map (fun w => ⟨w.id, false⟩), s.cursor⟩

/-- Net effect of one complete `scrapeGoogleMaps` call on the pool,
whatever the exit path: lazy init at entry, terminate-all at exit. -/
def scrapePoolEffect (s : PoolState) : PoolState :=
  terminateAll (ensurePool s)

/-- `getNextWorker` (lines 21–25): take the worker under the cursor and
advance the cursor round-robin. -/
def getNextWorker (s : PoolState) : WorkerH × PoolState :=
  (s.workers.getD s.cursor ⟨0, false⟩,
    ⟨s.workers, (s.cursor + 1) % s.workers.length⟩)

/-- A terminated worker thread delivers no messages; a live one may
deliver whatever the channel carries. -/
def repliesFrom (w : WorkerH) (channel : Nat → List TimedMsg) : List TimedMsg :=
  if w.alive then channel w.id else []

theorem getD_alive_false (l : List WorkerH) (n : Nat)
    (h : ∀ w ∈ l, w.alive = false) : (l.getD n ⟨0, false⟩).alive = false := by
  induction l generalizing n with
  | nil => cases n <;> rfl
  | cons w ws ih =>
    cases n with
    | zero => exact h w (List.mem_cons_self _ _)
    | succ m =>
      have hstep : (w :: ws).getD (m + 1) ⟨0, false⟩ = ws.getD m ⟨0, false⟩ := by
        simp [List.getD]
      rw [hstep]
      exact ih m (fun v hv => h v (List.mem_cons_of_mem _ hv))

/-- C10: after a `scrapeGoogleMaps` call completes, starting from the
fresh module state (empty array), the pool holds its 4 handles, every
one of them terminated; the lazy-init guard of a second call leaves
this state untouched (no fresh workers are ever created); and any
dispatch of the second call goes to a terminated worker, so it can only
resolve through the timeout path with the absent-marker email. -/
theorem C10_terminated_pool_reuse :
    ((scrapePoolEffect ⟨[], 0⟩).workers.length = NUM_WORKERS ∧ NUM_WORKERS = 4) ∧
    (∀ s : PoolState, ∀ w ∈ (scrapePoolEffect s).workers, w.alive = false) ∧
    (∀ s : PoolState, s.workers ≠ [] → ensurePool s = s) ∧
    (∀ w ∈ (scrapePoolEffect ⟨[], 0⟩).workers, w.alive = false) ∧
    ensurePool (scrapePoolEffect ⟨[], 0⟩) = scrapePoolEffect ⟨[], 0⟩ ∧
    (∀ (cursor : Nat) (rid : String) (listeners : List String)
        (channel : Nat → List TimedMsg),
      (getNextWorker ⟨(scrapePoolEffect ⟨[], 0⟩).workers, cursor⟩).1.alive = false ∧
      dispatch rid
          (repliesFrom (getNextWorker ⟨(scrapePoolEffect ⟨[], 0⟩).workers, cursor⟩).1
            channel)
          listeners =
        ((DISPATCH_TIMEOUT_MS, ⟨rid, false, some NA⟩), listeners) ∧
      assignedEmail ⟨rid, false, some NA⟩ = NA) := by
  have hdead : ∀ s : PoolState, ∀ w ∈ (scrapePoolEffect s).workers, w.alive = false := by
    intro s w hw
    simp only [scrapePoolEffect, terminateAll, List.mem_map] at hw
    obtain ⟨v, -, hv⟩ := hw
    rw [← hv]
  have hsel : ∀ cursor : Nat,
      (getNextWorker ⟨(scrapePoolEffect ⟨[], 0⟩).workers, cursor⟩).1.alive = false := by
    intro cursor
    unfold getNextWorker
    exact getD_alive_false _ cursor (hdead ⟨[], 0⟩)
  refine ⟨⟨by decide, rfl⟩, hdead, fun s hne => ?_, hdead ⟨[], 0⟩, ?_, ?_⟩
  · unfold ensurePool
    rw [if_neg (by simpa using hne)]
  · unfold ensurePool
    rw [if_neg (by decide)]
  · intro cursor rid listeners channel
    refine ⟨hsel cursor, ?_, by simp [assignedEmail]⟩
    have hrep : repliesFrom (getNextWorker
        ⟨(scrapePoolEffect ⟨[], 0⟩).workers, cursor⟩).1 channel = [] := by
      unfold repliesFrom
      rw [if_neg (by rw [hsel cursor]; exact Bool.false_ne_true)]
    rw [hrep]
    unfold dispatch firstMatching
    simp [List.erase_cons_head]

/-! ### Incremental crawl loop (`scrapeGoogleMaps`, part_000 lines
120–329) -/

/-- Observable events of one crawl run.  `iterStart` and
`chunkDispatch` carry the tick at which the cancellation flag was
sampled false just before the work began; `click` carries the
stagnation count at a best-effort show-more click; `emit` is one
sink-callback invocation. -/
inductive Ev where
  | iterStart (tick : Nat)
  | chunkDispatch (tick : Nat)
  | click (stagnant : Nat)
  | emit (b : Business)
deriving DecidableEq, Repr

/-- Environment of one crawl run: the cancellation flag as sampled at
each checkpoint tick (the clock advances at the loop head and at every
chunk head), the listing handles present in the DOM at each iteration,
the per-iteration fault (`some true` models a closed-target error,
`some false` a transient one), whether a per-listing extraction
succeeds (otherwise its promise resolves null and is filtered), and the
email the worker dispatch assigns to a listing. -/
structure CrawlEnv where
  stopped : Nat → Bool
  listings : Nat → List ListingData
  iterFault : Nat → Option Bool
  listingOk : ListingData → Bool
  emailFor : ListingData → String

/-- Bounded concurrency (line 124): 5 with email extraction, 10
without. -/
def maxConcurrent (xe : Bool) : Nat := if xe then 5 else 10

/-- Per-listing processing inside a chunk (lines 167–264): on success
the record is built and, when email extraction is enabled and a website
is present, the worker-pool result is stored in `email`; on a
per-listing fault the record is dropped. -/
def processListing (env : CrawlEnv) (xe : Bool) (d : ListingData) : Option Business :=
  if env.listingOk d then
    let b := buildBusiness d
    if xe = true ∧ b.website ≠ NA then some { b with email := env.emailFor d }
    else some b
  else none

/-- The `listings.slice(i, i + batchSize)` chunking of the batch loop
(lines 163–166). -/
def chunksOf (n : Nat) : List ListingData → List (List ListingData)
  | [] => []
  | x :: xs => (x :: xs.take (n - 1)) :: chunksOf n (xs.drop (n - 1))
termination_by l => l.length
decreasing_by
  simp only [List.length_cons, List.length_drop]
  omega

/-- The chunk loop of `processListingsBatch` (lines 163–269): the
cancellation flag is sampled at the head of every chunk iteration; once
it is set the loop breaks, keeping the results already collected.
Returns (next tick, collected records, events). -/
def processBatch (env : CrawlEnv) (xe : Bool) :
    Nat → List (List ListingData) → Nat × List Business × List Ev
  | tick, [] => (tick, [], [])
  | tick, chunk :: rest =>
    if env.stopped tick then (tick + 1, [], [])
    else
      let rs := chunk.filterMap (processListing env xe)
      let next := processBatch env xe (tick + 1) rest
      (next.1, rs ++ next.2.1, Ev.chunkDispatch tick :: next.2.2)

/-- Mutable loop state: the checkpoint clock plus `scrapedData`,
`lastResultsCount`, `consecutiveNoNewResults` and `scrollAttempts`. -/
structure LoopState where
  tick : Nat
  scraped : List Business
  lastCount : Nat
  stagnant : Nat
  attempts : Nat
deriving Repr

/-- The while loop of `scrapeGoogleMaps` (lines 273–313), structurally
recursive on fuel; the guard re-checks `scrollAttempts < 100`
(`attempts`), so any fuel of at least `100 - attempts` realises the
exact loop semantics.  Per iteration: after the guard, a closed-target
fault breaks, a transient fault just advances the counter, and
otherwise the newly appeared suffix of listings (if any) is chunked and
processed, every resulting record being pushed and emitted to the sink;
with no new listings the stagnation counter rises, a show-more click is
attempted from 5 and the loop breaks at 8. -/
def crawlLoop (env : CrawlEnv) (total : Nat) (xe : Bool) :
    Nat → LoopState → List Business × List Ev
  | 0, st => (st.scraped, [])
  | fuel + 1, st =>
    if env.stopped st.tick = false ∧ st.scraped.length < total ∧ st.attempts < 100 then
      match env.iterFault st.attempts with
      | some true => (st.scraped, [Ev.iterStart st.tick])
      | some false =>
        let next := crawlLoop env total xe fuel
          ⟨st.tick + 1, st.scraped, st.lastCount, st.stagnant, st.attempts + 1⟩
        (next.1, Ev.iterStart st.tick :: next.2)
      | none =>
        let ls := env.listings st.attempts
        if st.lastCount < ls.length then
          let newL := ls.drop st.lastCount
          let pb := processBatch env xe (st.tick + 1)
            (chunksOf (Nat.min (maxConcurrent xe) newL.length) newL)
          let next := crawlLoop env total xe fuel
            ⟨pb.1, st.scraped ++ pb.2.1, ls.length, 0, st.attempts + 1⟩
          (next.1, Ev.iterStart st.tick :: (pb.2.2 ++ pb.2.1.map Ev.emit ++ next.2))
        else
          let stag := st.stagnant + 1
          if 8 ≤ stag then (st.scraped, [Ev.iterStart st.tick, Ev.click stag])
          else
            let next := crawlLoop env total xe fuel
              ⟨st.tick + 1, st.scraped, st.lastCount, stag, st.attempts + 1⟩
            if 5 ≤ stag then
              (next.1, Ev.iterStart st.tick :: Ev.click stag :: next.2)
            else (next.1, Ev.iterStart st.tick :: next.2)
    else (st.scraped, [])

/-- Entry point: what `scrapeGoogleMaps` returns together with the
event trace, from the initial state with the full 100-iteration
budget. -/
def scrapeRun (env : CrawlEnv) (total : Nat) (xe : Bool) : List Business × List Ev :=
  crawlLoop env total xe 100 ⟨0, [], 0, 0, 0⟩

/-- Payload of a sink-callback event. -/
def emitOf : Ev → Option Business
  | Ev.emit b => some b
  | _ => none

/-- The records delivered to the sink callback, in order. -/
def emittedRecords (evs : List Ev) : List Business := evs.filterMap emitOf

/-- Recogniser of loop-body entries. -/
def isIterStart : Ev → Bool
  | Ev.iterStart _ => true
  | _ => false

/-- Number of loop-body executions recorded in a trace. -/
def countIters (evs : List Ev) : Nat := evs.countP isIterStart

theorem emittedRecords_nil : emittedRecords [] = [] := rfl

theorem emittedRecords_cons_iter (t : Nat) (l : List Ev) :
    emittedRecords (Ev.iterStart t :: l) = emittedRecords l := rfl

theorem emittedRecords_cons_chunk (t : Nat) (l : List Ev) :
    emittedRecords (Ev.chunkDispatch t :: l) = emittedRecords l := rfl

theorem emittedRecords_cons_click (n : Nat) (l : List Ev) :
    emittedRecords (Ev.click n :: l) = emittedRecords l := rfl

theorem emittedRecords_cons_emit (b : Business) (l : List Ev) :
    emittedRecords (Ev.emit b :: l) = b :: emittedRecords l := rfl

theorem emittedRecords_append (l₁ l₂ : List Ev) :
    emittedRecords (l₁ ++ l₂) = emittedRecords l₁ ++ emittedRecords l₂ :=
  List.filterMap_append l₁ l₂ emitOf

theorem emittedRecords_map_emit (l : List Business) :
    emittedRecords (l.map Ev.emit) = l := by
  induction l with
  | nil => rfl
  | cons b bs ih => rw [List.map_cons, emittedRecords_cons_emit, ih]

theorem processBatch_emitted (env : CrawlEnv) (xe : Bool) :
    ∀ (cl : List (List ListingData)) (tick : Nat),
      emittedRecords (processBatch env xe tick cl).2.2 = [] := by
  intro cl
  induction cl with
  | nil => intro tick; rfl
  | cons c cs ih =>
    intro tick
    rw [processBatch]
    by_cases h : env.stopped tick = true
    · rw [if_pos h]; rfl
    · rw [if_neg h]
      simp only []
      rw [emittedRecords_cons_chunk, ih]

theorem processBatch_mem (env : CrawlEnv) (xe : Bool) :
    ∀ (cl : List (List ListingData)) (tick : Nat) (e : Ev),
      e ∈ (processBatch env xe tick cl).2.2 →
      ∃ t, e = Ev.chunkDispatch t ∧ env.stopped t = false := by
  intro cl
  induction cl with
  | nil =>
    intro tick e he
    exact absurd he (by simp [processBatch])
  | cons c cs ih =>
    intro tick e he
    rw [processBatch] at he
    by_cases h : env.stopped tick = true
    · rw [if_pos h] at he
      exact absurd he (by simp)
    · rw [if_neg h] at he
      simp only [List.mem_cons] at he
      rcases he with he | he
      · exact ⟨tick, he, by simpa using h⟩
      · exact ih _ e he

theorem countIters_nil : countIters [] = 0 := rfl

theorem countIters_cons_iter (t : Nat) (l : List Ev) :
    countIters (Ev.iterStart t :: l) = countIters l + 1 := by
  simp [countIters, List.countP_cons, isIterStart]

theorem countIters_cons_chunk (t : Nat) (l : List Ev) :
    countIters (Ev.chunkDispatch t :: l) = countIters l := by
  simp [countIters, List.countP_cons, isIterStart]

theorem countIters_cons_click (n : Nat) (l : List Ev) :
    countIters (Ev.click n :: l) = countIters l := by
  simp [countIters, List.countP_cons, isIterStart]

theorem countIters_append (l₁ l₂ : List Ev) :
    countIters (l₁ ++ l₂) = countIters l₁ + countIters l₂ := by
  simp [countIters, List.countP_append]

theorem countIters_cons_emit (b : Business) (l : List Ev) :
    countIters (Ev.emit b :: l) = countIters l := by
  simp [countIters, List.countP_cons, isIterStart]

theorem countIters_map_emit (l : List Business) :
    countIters (l.map Ev.emit) = 0 := by
  induction l with
  | nil => rfl
  | cons b bs ih => rw [List.map_cons, countIters_cons_emit, ih]

theorem processBatch_countIters (env : CrawlEnv) (xe : Bool) :
    ∀ (cl : List (List ListingData)) (tick : Nat),
      countIters (processBatch env xe tick cl).2.2 = 0 := by
  intro cl
  induction cl with
  | nil => intro tick; rfl
  | cons c cs ih =>
    intro tick
    rw [processBatch]
    by_cases h : env.stopped tick = true
    · rw [if_pos h]; rfl
    · rw [if_neg h]
      simp only []
      rw [countIters_cons_chunk, ih]

theorem crawlLoop_sink (env : CrawlEnv) (total : Nat) (xe : Bool) :
    ∀ (fuel : Nat) (st : LoopState),
      (crawlLoop env total xe fuel st).1 =
        st.scraped ++ emittedRecords (crawlLoop env total xe fuel st).2 := by
  intro fuel
  induction fuel with
  | zero =>
    intro st
    rw [crawlLoop, emittedRecords_nil, List.append_nil]
  | succ n ih =>
    intro st
    rw [crawlLoop]
    by_cases hg : env.stopped st.tick = false ∧ st.scraped.length < total ∧
        st.attempts < 100
    · rw [if_pos hg]
      cases hf : env.iterFault st.attempts with
      | some b =>
        cases b with
        | false =>
          show (crawlLoop env total xe n _).1 = _
          rw [emittedRecords_cons_iter]
          exact ih _
        | true =>
          rw [emittedRecords_cons_iter, emittedRecords_nil, List.append_nil]
      | none =>
        by_cases hl : st.lastCount < (env.listings st.attempts).length
        · rw [if_pos hl]
          show (crawlLoop env total xe n _).1 = _
          rw [emittedRecords_cons_iter, emittedRecords_append, emittedRecords_append,
            processBatch_emitted, emittedRecords_map_emit, List.nil_append, ih _,
            List.append_assoc]
        · rw [if_neg hl]
          by_cases h8 : 8 ≤ st.stagnant + 1
          · rw [if_pos h8]
            rw [emittedRecords_cons_iter, emittedRecords_cons_click,
              emittedRecords_nil, List.append_nil]
          · rw [if_neg h8]
            by_cases h5 : 5 ≤ st.stagnant + 1
            · rw [if_pos h5]
              show (crawlLoop env total xe n _).1 = _
              rw [emittedRecords_cons_iter, emittedRecords_cons_click]
              exact ih _
            · rw [if_neg h5]
              show (crawlLoop env total xe n _).1 = _
              rw [emittedRecords_cons_iter]
              exact ih _
    · rw [if_neg hg, emittedRecords_nil, List.append_nil]

theorem crawlLoop_event_not_stopped (env : CrawlEnv) (total : Nat) (xe : Bool) :
    ∀ (fuel : Nat) (st : LoopState) (t : Nat),
      (Ev.iterStart t ∈ (crawlLoop env total xe fuel st).2 ∨
       Ev.chunkDispatch t ∈ (crawlLoop env total xe fuel st).2) →
      env.stopped t = false := by
  intro fuel
  induction fuel with
  | zero =>
    intro st t h
    rw [crawlLoop] at h
    rcases h with h | h <;> exact absurd h (List.not_mem_nil _)
  | succ n ih =>
    intro st t h
    rw [crawlLoop] at h
    by_cases hg : env.stopped st.tick = false ∧ st.scraped.length < total ∧
        st.attempts < 100
    · rw [if_pos hg] at h
      cases hf : env.iterFault st.attempts with
      | some b =>
        rw [hf] at h
        cases b with
        | false =>
          simp only [List.mem_cons, or_assoc] at h
          rcases h with h | h | h | h
          · cases h; exact hg.1
          · exact ih _ t (Or.inl h)
          · cases h
          · exact ih _ t (Or.inr h)
        | true =>
          simp only [List.mem_cons, List.not_mem_nil, or_false] at h
          rcases h with h | h
          · cases h; exact hg.1
          · cases h
      | none =>
        rw [hf] at h
        by_cases hl : st.lastCount < (env.listings st.attempts).length
        · rw [if_pos hl] at h
          simp only [List.mem_cons, List.mem_append, List.mem_map, or_assoc] at h
          rcases h with h | h | h | h | h | h | h | h
          · cases h; exact hg.1
          · obtain ⟨t', heq, hs⟩ := processBatch_mem env xe _ _ _ h
            cases heq
          · obtain ⟨b, -, heq⟩ := h
            exact Ev.noConfusion heq
          · exact ih _ t (Or.inl h)
          · cases h
          · obtain ⟨t', heq, hs⟩ := processBatch_mem env xe _ _ _ h
            cases heq
            exact hs
          · obtain ⟨b, -, heq⟩ := h
            exact Ev.noConfusion heq
          · exact ih _ t (Or.inr h)
        · rw [if_neg hl] at h
          by_cases h8 : 8 ≤ st.stagnant + 1
          · rw [if_pos h8] at h
            simp only [List.mem_cons, List.not_mem_nil, or_false, or_assoc] at h
            rcases h with h | h | h | h
            · cases h; exact hg.1
            · cases h
            · cases h
            · cases h
          · rw [if_neg h8] at h
            by_cases h5 : 5 ≤ st.stagnant + 1
            · rw [if_pos h5] at h
              simp only [List.mem_cons, or_assoc] at h
              rcases h with h | h | h | h | h | h
              · cases h; exact hg.1
              · cases h
              · exact ih _ t (Or.inl h)
              · cases h
              · cases h
              · exact ih _ t (Or.inr h)
            · rw [if_neg h5] at h
              simp only [List.mem_cons, or_assoc] at h
              rcases h with h | h | h | h
              · cases h; exact hg.1
              · exact ih _ t (Or.inl h)
              · cases h
              · exact ih _ t (Or.inr h)
    · rw [if_neg hg] at h
      rcases h with h | h <;> exact absurd h (List.not_mem_nil _)

theorem crawlLoop_click_ge (env : CrawlEnv) (total : Nat) (xe : Bool) :
    ∀ (fuel : Nat) (st : LoopState) (m : Nat),
      Ev.click m ∈ (crawlLoop env total xe fuel st).2 → 5 ≤ m := by
  intro fuel
  induction fuel with
  | zero =>
    intro st m h
    rw [crawlLoop] at h
    exact absurd h (List.not_mem_nil _)
  | succ n ih =>
    intro st m h
    rw [crawlLoop] at h
    by_cases hg : env.stopped st.tick = false ∧ st.scraped.length < total ∧
        st.attempts < 100
    · rw [if_pos hg] at h
      cases hf : env.iterFault st.attempts with
      | some b =>
        rw [hf] at h
        cases b with
        | false =>
          simp only [List.mem_cons] at h
          rcases h with h | h
          · cases h
          · exact ih _ m h
        | true =>
          simp only [List.mem_cons, List.not_mem_nil, or_false] at h
          cases h
      | none =>
        rw [hf] at h
        by_cases hl : st.lastCount < (env.listings st.attempts).length
        · rw [if_pos hl] at h
          simp only [List.mem_cons, List.mem_append, List.mem_map, or_assoc] at h
          rcases h with h | h | h | h
          · cases h
          · obtain ⟨t', heq, hs⟩ := processBatch_mem env xe _ _ _ h
            cases heq
          · obtain ⟨b, -, heq⟩ := h
            exact Ev.noConfusion heq
          · exact ih _ m h
        · rw [if_neg hl] at h
          by_cases h8 : 8 ≤ st.stagnant + 1
          · rw [if_pos h8] at h
            simp only [List.mem_cons, List.not_mem_nil, or_false] at h
            rcases h with h | h
            · cases h
            · cases h
              omega
          · rw [if_neg h8] at h
            by_cases h5 : 5 ≤ st.stagnant + 1
            · rw [if_pos h5] at h
              simp only [List.mem_cons] at h
              rcases h with h | h | h
              · cases h
              · cases h
                exact h5
              · exact ih _ m h
            · rw [if_neg h5] at h
              simp only [List.mem_cons] at h
              rcases h with h | h
              · cases h
              · exact ih _ m h
    · rw [if_neg hg] at h
      exact absurd h (List.not_mem_nil _)

theorem crawlLoop_iters_le_fuel (env : CrawlEnv) (total : Nat) (xe : Bool) :
    ∀ (fuel : Nat) (st : LoopState),
      countIters (crawlLoop env total xe fuel st).2 ≤ fuel := by
  intro fuel
  induction fuel with
  | zero =>
    intro st
    rw [crawlLoop, countIters_nil]
  | succ n ih =>
    intro st
    rw [crawlLoop]
    by_cases hg : env.stopped st.tick = false ∧ st.scraped.length < total ∧
        st.attempts < 100
    · rw [if_pos hg]
      cases hf : env.iterFault st.attempts with
      | some b =>
        cases b with
        | false =>
          rw [countIters_cons_iter]
          exact Nat.add_le_add_right (ih _) 1
        | true =>
          rw [countIters_cons_iter, countIters_nil]
          omega
      | none =>
        by_cases hl : st.lastCount < (env.listings st.attempts).length
        · rw [if_pos hl]
          rw [countIters_cons_iter, countIters_append, countIters_append,
            processBatch_countIters, countIters_map_emit]
          simp only [Nat.zero_add, Nat.add_zero]
          exact Nat.add_le_add_right (ih _) 1
        · rw [if_neg hl]
          by_cases h8 : 8 ≤ st.stagnant + 1
          · rw [if_pos h8]
            rw [countIters_cons_iter, countIters_cons_click, countIters_nil]
            omega
          · rw [if_neg h8]
            by_cases h5 : 5 ≤ st.stagnant + 1
            · rw [if_pos h5]
              rw [countIters_cons_iter, countIters_cons_click]
              exact Nat.add_le_add_right (ih _) 1
            · rw [if_neg h5]
              rw [countIters_cons_iter]
              exact Nat.add_le_add_right (ih _) 1
    · rw [if_neg hg, countIters_nil]
      omega

theorem crawlLoop_attempts_cap (env : CrawlEnv) (total : Nat) (xe : Bool)
    (fuel : Nat) (st : LoopState) (h : 100 ≤ st.attempts) :
    crawlLoop env total xe fuel st = (st.scraped, []) := by
  cases fuel with
  | zero => rw [crawlLoop]
  | succ n =>
    rw [crawlLoop, if_neg]
    intro hg
    exact absurd hg.2.2 (by omega)

/-- A run whose cancellation flag is already set at every checkpoint. -/
def stoppedEnv : CrawlEnv :=
  ⟨fun _ => true, fun _ => [], fun _ => none, fun _ => true, fun _ => NA⟩

/-- A run whose feed never reveals any listing: every iteration is
stagnant. -/
def stagnantEnv : CrawlEnv :=
  ⟨fun _ => false, fun _ => [], fun _ => none, fun _ => true, fun _ => NA⟩

/-- C5: the record list returned by the crawl equals exactly, in order,
the sequence of records emitted to the sink callback (for the full run,
and from any intermediate state relative to its accumulator); and with
a monotone cancellation flag (set once, never reset), after the flag
has fired no scroll iteration and no chunk dispatch begins: no event of
either kind sampled at or after the firing tick occurs in the trace. -/
theorem C5_cancellation :
    (∀ env total xe, (scrapeRun env total xe).1 =
      emittedRecords (scrapeRun env total xe).2) ∧
    (∀ env total xe fuel st,
      (crawlLoop env total xe fuel st).1 =
        st.scraped ++ emittedRecords (crawlLoop env total xe fuel st).2) ∧
    (∀ (env : CrawlEnv) (total : Nat) (xe : Bool) (fuel : Nat) (st : LoopState)
        (t tf : Nat),
      (∀ i j, i ≤ j → env.stopped i = true → env.stopped j = true) →
      env.stopped tf = true → tf ≤ t →
      Ev.iterStart t ∉ (crawlLoop env total xe fuel st).2 ∧
      Ev.chunkDispatch t ∉ (crawlLoop env total xe fuel st).2) := by
  refine ⟨?_, crawlLoop_sink, ?_⟩
  · intro env total xe
    have h := crawlLoop_sink env total xe 100 ⟨0, [], 0, 0, 0⟩
    simpa [scrapeRun] using h
  · intro env total xe fuel st t tf hmono hf hle
    constructor
    · intro hmem
      have hns := crawlLoop_event_not_stopped env total xe fuel st t (Or.inl hmem)
      rw [hmono tf t hle hf] at hns
      exact Bool.noConfusion hns
    · intro hmem
      have hns := crawlLoop_event_not_stopped env total xe fuel st t (Or.inr hmem)
      rw [hmono tf t hle hf] at hns
      exact Bool.noConfusion hns

/-- C5 witness. -/
theorem C5_cancellation_witness :
    Ev.iterStart 0 ∉ (crawlLoop stoppedEnv 10 false 100 ⟨0, [], 0, 0, 0⟩).2 ∧
    Ev.chunkDispatch 0 ∉ (crawlLoop stoppedEnv 10 false 100 ⟨0, [], 0, 0, 0⟩).2 :=
  C5_cancellation.2.2 stoppedEnv 10 false 100 ⟨0, [], 0, 0, 0⟩ 0 0
    (fun _ _ _ hi => hi) rfl (Nat.le_refl 0)

/-- C9: every crawl run terminates with the loop body executing at most
100 times (the full run stays within its 100-iteration budget, and once
the attempt counter has reached the cap the loop exits immediately
without another iteration); every best-effort show-more click happens
at a stagnation count of at least 5; and a fully stagnant run executes
exactly 8 iterations before the stagnation exit. -/
theorem C9_loop_bounded :
    (∀ env total xe, countIters (scrapeRun env total xe).2 ≤ 100) ∧
    (∀ env total xe fuel st, 100 ≤ st.attempts →
      crawlLoop env total xe fuel st = (st.scraped, [])) ∧
    (∀ env total xe fuel st m,
      Ev.click m ∈ (crawlLoop env total xe fuel st).2 → 5 ≤ m) ∧
    countIters (scrapeRun stagnantEnv 10 false).2 = 8 := by
  refine ⟨?_, ?_, ?_, by decide⟩
  · intro env total xe
    exact crawlLoop_iters_le_fuel env total xe 100 ⟨0, [], 0, 0, 0⟩
  · intro env total xe fuel st h
    exact crawlLoop_attempts_cap env total xe fuel st h
  · intro env total xe fuel st m h
    exact crawlLoop_click_ge env total xe fuel st m h

/-- C9 witness. -/
theorem C9_loop_bounded_witness :
    5 ≤ 5 ∧ crawlLoop stagnantEnv 10 false 3 ⟨0, [], 0, 0, 100⟩ = ([], []) :=
  ⟨C9_loop_bounded.2.2.1 stagnantEnv 10 false 100 ⟨0, [], 0, 0, 0⟩ 5 (by decide),
    C9_loop_bounded.2.1 stagnantEnv 10 false 3 ⟨0, [], 0, 0, 100⟩ (by decide)⟩

end GMaps
